import Mathlib

/-!
# FileJack access-control and secure file-access engine: shallow embedding

Lean embedding of the FileJack repository's core: the `AccessPolicy`
path-validation algorithm (`src/access_control.rs`) and the
`FileReader`/`FileWriter` operation protocols (`src/file_ops.rs`).

Modelling conventions:
* A filesystem path is the list of its components below the root
  (`[]` is `/`), already free of `.` and `..` components.
* Rust `Result<T, FileJackError>` becomes `Except FJError T`; the error
  payload strings are abstracted away, keeping only the variant.
* The OS syscalls consulted by the validator (`canonicalize`, `exists`,
  `read_link`) are an abstract environment `OsEnv`; the content
  operations are modelled over a concrete symlink-free `FileSystem`
  state whose induced `OsEnv` is `FileSystem.env`.  In this model the
  OS I/O primitives themselves are reliable (no device failures), while
  the failure conditions the code branches on (missing file, missing
  parent, non-regular target) are represented explicitly.
-/

deriving instance DecidableEq for Except

namespace FileJack

/-- A filesystem path: its components below the root (`[]` is the root). -/
abbrev FPath := List String

/-- The variants of `FileJackError` (payload strings abstracted away). -/
inductive FJError where
  | fileNotFound
  | permissionDenied
  | invalidPath
  | invalidParameters
  | ioError
  deriving DecidableEq, Repr

/-- The `std::io::ErrorKind`s the code distinguishes when translating OS errors. -/
inductive IoErrorKind where
  | notFound
  | permissionDenied
  | other
  deriving DecidableEq, Repr

/-- `p.starts_with(base)` on component lists, receiver first as in Rust
(a path starts with itself, and every path starts with the root). -/
def pathStartsWith : FPath → FPath → Bool
  | _, [] => true
  | [], _ :: _ => false
  | a :: as, b :: bs => a == b && pathStartsWith as bs

/-- The characters after the last `'.'` of a character list, if any. -/
def afterLastDot : List Char → Option (List Char)
  | [] => none
  | c :: cs =>
    match afterLastDot cs with
    | some r => some r
    | none => if c = '.' then some cs else none

/-- Rust `Path::extension` restricted to one file name: the portion after the
final `'.'`, where a single leading dot does not begin an extension
(so `".env"` has no extension, `"a.tar.gz"` has extension `"gz"`). -/
def extensionOfName (s : String) : Option String :=
  match s.toList with
  | [] => none
  | c :: cs =>
    (afterLastDot (if c = '.' then cs else c :: cs)).map (fun r => String.mk r)

/-- Rust `Path::file_name`: the last component (none for the root). -/
def fileName (p : FPath) : Option String :=
  p.getLast?

/-- Rust `Path::extension` on whole paths. -/
def pathExtension (p : FPath) : Option String :=
  (fileName p).bind extensionOfName

/-- Rust `str::to_lowercase`, written over the character list so that it
evaluates by kernel reduction. -/
def stringToLower (s : String) : String :=
  String.mk (s.toList.map Char.toLower)

/-- Rust `str::starts_with('.')`. -/
def stringStartsWithDot (s : String) : Bool :=
  match s.toList with
  | [] => false
  | c :: _ => c == '.'

/-- The OS syscalls consulted by the path validator.  `canon` is
`std::fs::canonicalize`, `pathExists` is `Path::exists`, `readLinkOk`
tells whether `Path::read_link` succeeds (the path is itself a symlink). -/
structure OsEnv where
  canon : FPath → Except IoErrorKind FPath
  pathExists : FPath → Bool
  readLinkOk : FPath → Bool

/-- `AccessPolicy` from `src/access_control.rs` (field names as in the source;
`max_file_size : u64` becomes `Nat`, `0` meaning no limit). -/
structure AccessPolicy where
  allowed_paths : List FPath
  denied_paths : List FPath
  allowed_extensions : List String
  denied_extensions : List String
  max_file_size : Nat
  allow_symlinks : Bool
  allow_hidden_files : Bool
  read_only : Bool
  deriving DecidableEq, Repr

/-- `AccessPolicy::canonicalize_path`: canonicalize, mapping a not-found OS
error to `FileNotFound` and any other to `Io`. -/
def canonicalize_path (env : OsEnv) (path : FPath) : Except FJError FPath :=
  match env.canon path with
  | .ok c => .ok c
  | .error .notFound => .error .fileNotFound
  | .error _ => .error .ioError

/-- Loop body of `AccessPolicy::check_denied_paths`: each denied root that
canonicalizes successfully is tested for containment of `canonical`. -/
def check_denied_go (env : OsEnv) (canonical : FPath) : List FPath → Except FJError Unit
  | [] => .ok ()
  | denied :: rest =>
    match env.canon denied with
    | .ok denied_canonical =>
      if pathStartsWith canonical denied_canonical || canonical == denied_canonical then
        .error .permissionDenied
      else
        check_denied_go env canonical rest
    | .error _ => check_denied_go env canonical rest

/-- `AccessPolicy::check_denied_paths`. -/
def AccessPolicy.check_denied_paths (policy : AccessPolicy) (env : OsEnv)
    (canonical : FPath) : Except FJError Unit :=
  check_denied_go env canonical policy.denied_paths

/-- Loop body of `AccessPolicy::check_allowed_paths` over a non-empty allow list. -/
def check_allowed_go (env : OsEnv) (canonical : FPath) : List FPath → Except FJError Unit
  | [] => .error .permissionDenied
  | allowed :: rest =>
    match env.canon allowed with
    | .ok allowed_canonical =>
      if pathStartsWith canonical allowed_canonical || canonical == allowed_canonical then
        .ok ()
      else
        check_allowed_go env canonical rest
    | .error _ => check_allowed_go env canonical rest

/-- `AccessPolicy::check_allowed_paths`: empty allow list admits every path. -/
def AccessPolicy.check_allowed_paths (policy : AccessPolicy) (env : OsEnv)
    (canonical : FPath) : Except FJError Unit :=
  if policy.allowed_paths.isEmpty then
    .ok ()
  else
    check_allowed_go env canonical policy.allowed_paths

/-- `AccessPolicy::check_extension`: case-insensitive, deny list first, then
allow list; no extension is rejected when an allow list is configured. -/
def AccessPolicy.check_extension (policy : AccessPolicy) (path : FPath) :
    Except FJError Unit :=
  match pathExtension path with
  | some ext =>
    let ext_str := stringToLower ext
    if !policy.denied_extensions.isEmpty &&
        policy.denied_extensions.any
          (fun denied_ext => ext_str == stringToLower denied_ext) then
      .error .permissionDenied
    else if !policy.allowed_extensions.isEmpty &&
        !policy.allowed_extensions.any
          (fun allowed_ext => ext_str == stringToLower allowed_ext) then
      .error .permissionDenied
    else
      .ok ()
  | none =>
    if !policy.allowed_extensions.isEmpty then
      .error .permissionDenied
    else
      .ok ()

/-- `AccessPolicy::check_hidden_files`. -/
def AccessPolicy.check_hidden_files (policy : AccessPolicy) (path : FPath) :
    Except FJError Unit :=
  if !policy.allow_hidden_files then
    match fileName path with
    | some filename =>
      if stringStartsWithDot filename then
        .error .permissionDenied
      else
        .ok ()
    | none => .ok ()
  else
    .ok ()

/-- `AccessPolicy::check_symlinks`: rejected only when symlinks are disallowed,
resolution changed the path, and the original path is itself a link. -/
def AccessPolicy.check_symlinks (policy : AccessPolicy) (env : OsEnv)
    (original canonical : FPath) : Except FJError Unit :=
  if !policy.allow_symlinks && original != canonical then
    if env.readLinkOk original then
      .error .permissionDenied
    else
      .ok ()
  else
    .ok ()

/-- `AccessPolicy::validate_read`: canonicalize, then denied roots, allowed
roots, extension, hidden files and symlinks, in that order (`>>=` plays the
role of the `?` early return). -/
def AccessPolicy.validate_read (policy : AccessPolicy) (env : OsEnv) (path : FPath) :
    Except FJError FPath :=
  canonicalize_path env path >>= fun canonical =>
    policy.check_denied_paths env canonical >>= fun _ =>
      policy.check_allowed_paths env canonical >>= fun _ =>
        policy.check_extension canonical >>= fun _ =>
          policy.check_hidden_files canonical >>= fun _ =>
            policy.check_symlinks env path canonical >>= fun _ =>
              .ok canonical

/-- Body of the `while !path_to_check.exists()` ancestor walk of
`AccessPolicy::validate_write`, structurally recursive on the loop variant
(each `parent()` step drops the last component, so the path length bounds
the iteration count). -/
def findExistingAncestorGo (env : OsEnv) : Nat → FPath → Except FJError FPath
  | _, [] =>
    if env.pathExists [] then .ok [] else .error .invalidPath
  | 0, p =>
    if env.pathExists p then .ok p else .error .invalidPath
  | fuel + 1, p =>
    if env.pathExists p then .ok p else findExistingAncestorGo env fuel p.dropLast

/-- The `while !path_to_check.exists()` ancestor walk of
`AccessPolicy::validate_write`: the nearest existing ancestor of `p`
(possibly `p` itself), or `InvalidPath` when even the root is missing. -/
def findExistingAncestor (env : OsEnv) (p : FPath) : Except FJError FPath :=
  findExistingAncestorGo env p.length p

/-- `AccessPolicy::validate_write`: read-only gate, ancestor walk,
deny/allow checks on the canonicalized ancestor, extension and hidden
checks on the original path, returning the original path. -/
def AccessPolicy.validate_write (policy : AccessPolicy) (env : OsEnv) (path : FPath) :
    Except FJError FPath :=
  if policy.read_only then
    .error .permissionDenied
  else
    findExistingAncestor env path >>= fun path_to_check =>
      canonicalize_path env path_to_check >>= fun canonical =>
        policy.check_denied_paths env canonical >>= fun _ =>
          policy.check_allowed_paths env canonical >>= fun _ =>
            policy.check_extension path >>= fun _ =>
              policy.check_hidden_files path >>= fun _ =>
                .ok path

/-- `AccessPolicy::validate_file_size`: `0` means no limit. -/
def AccessPolicy.validate_file_size (policy : AccessPolicy) (size : Nat) :
    Except FJError Unit :=
  if policy.max_file_size > 0 && size > policy.max_file_size then
    .error .permissionDenied
  else
    .ok ()

/-- A symlink-free filesystem state: regular files (path and contents) and
directories, keyed by canonical paths. -/
structure FileSystem where
  files : List (FPath × String)
  dirs : List FPath
  deriving DecidableEq, Repr

/-- Contents of the regular file at `p`, if one is present. -/
def FileSystem.fileContent (fs : FileSystem) (p : FPath) : Option String :=
  (fs.files.find? (fun e => e.1 == p)).map Prod.snd

/-- `Path::is_file` over this state. -/
def FileSystem.isFile (fs : FileSystem) (p : FPath) : Bool :=
  (fs.fileContent p).isSome

/-- `Path::is_dir` over this state. -/
def FileSystem.isDir (fs : FileSystem) (p : FPath) : Bool :=
  fs.dirs.contains p

/-- `Path::exists` over this state. -/
def FileSystem.pathExists (fs : FileSystem) (p : FPath) : Bool :=
  fs.isFile p || fs.isDir p

/-- The `OsEnv` induced by a symlink-free filesystem: every existing path is
its own canonical form, a missing path fails to canonicalize with not-found,
and no path is a link. -/
def FileSystem.env (fs : FileSystem) : OsEnv :=
  { canon := fun p => if fs.pathExists p then .ok p else .error .notFound
    pathExists := fun p => fs.pathExists p
    readLinkOk := fun _ => false }

/-- Create or truncate-and-replace the regular file at `p` with contents `c`. -/
def FileSystem.setFile (fs : FileSystem) (p : FPath) (c : String) : FileSystem :=
  { fs with files := (p, c) :: fs.files.filter (fun e => !(e.1 == p)) }

/-- Remove the regular file at `p`. -/
def FileSystem.removeFile (fs : FileSystem) (p : FPath) : FileSystem :=
  { fs with files := fs.files.filter (fun e => !(e.1 == p)) }

/-- All the prefixes of a path, from the root up to the path itself. -/
def pathAncestors : FPath → List FPath
  | [] => [[]]
  | c :: cs => [] :: (pathAncestors cs).map (fun q => c :: q)

/-- `std::fs::create_dir_all`: create the directory and every missing
ancestor; fails when some ancestor already exists as a regular file. -/
def FileSystem.createDirAll (fs : FileSystem) (p : FPath) :
    Except IoErrorKind FileSystem :=
  if (pathAncestors p).any (fun q => fs.isFile q) then
    .error .other
  else
    .ok { fs with dirs := (pathAncestors p).filter (fun q => !fs.isDir q) ++ fs.dirs }

/-- Precondition of opening `p` for writing (create, or create+append): the
target must not be a directory and its parent directory must exist; a missing
parent surfaces as a not-found OS error, a directory target as another kind. -/
def FileSystem.openWriteCheck (fs : FileSystem) (p : FPath) :
    Except IoErrorKind Unit :=
  if fs.isDir p then
    .error .other
  else if fs.isDir p.dropLast then
    .ok ()
  else
    .error .notFound

/-- All paths present in the state (files first, then directories). -/
def FileSystem.allPaths (fs : FileSystem) : List FPath :=
  fs.files.map Prod.fst ++ fs.dirs

/-- `metadata.len()`: byte size of a regular file, `0` for a directory. -/
def FileSystem.sizeOfPath (fs : FileSystem) (p : FPath) : Nat :=
  ((fs.fileContent p).map String.utf8ByteSize).getD 0

/-- `DirectoryEntry` from `src/file_ops.rs` (the `path` display string kept
as a structured path). -/
structure DirectoryEntry where
  path : FPath
  name : String
  is_file : Bool
  is_dir : Bool
  size : Option Nat
  deriving DecidableEq, Repr

/-- The `DirectoryEntry` record built for a discovered path. -/
def FileSystem.mkEntry (fs : FileSystem) (p : FPath) : DirectoryEntry :=
  { path := p
    name := (fileName p).getD ""
    is_file := fs.isFile p
    is_dir := fs.isDir p
    size := some (fs.sizeOfPath p) }

/-- `Except.isOk` as used to keep or drop a directory entry. -/
def exceptIsOk {ε α : Type} : Except ε α → Bool
  | .ok _ => true
  | .error _ => false

/-- The paths a directory traversal rooted at `root` discovers: direct
children for `fs::read_dir`, every strict descendant for the recursive
`WalkDir` (which skips the root itself). -/
def FileSystem.walkCandidates (fs : FileSystem) (root : FPath) (recursive : Bool) :
    List FPath :=
  fs.allPaths.filter (fun p =>
    pathStartsWith p root &&
      (if recursive then p != root else p.length == root.length + 1))

/-- `FileReader` from `src/file_ops.rs`. -/
structure FileReader where
  policy : AccessPolicy

/-- `FileReader::read_to_string`: validate, open (not-found when the file is
missing), check size and regular-file-ness through the handle, read.
Opening a directory read-only succeeds, so a directory fails the
regular-file check with `InvalidPath`. -/
def FileReader.read_to_string (rd : FileReader) (fs : FileSystem) (path : FPath) :
    Except FJError String :=
  match rd.policy.validate_read fs.env path with
  | .error e => .error e
  | .ok validated_path =>
    match fs.fileContent validated_path with
    | some content =>
      match rd.policy.validate_file_size content.utf8ByteSize with
      | .error e => .error e
      | .ok _ => .ok content
    | none =>
      if fs.isDir validated_path then
        .error .invalidPath
      else
        .error .fileNotFound

/-- `FileReader::list_directory`: validate the root, require a directory,
then include exactly the discovered entries that re-validate under the
full policy, silently omitting the rest. -/
def FileReader.list_directory (rd : FileReader) (fs : FileSystem) (path : FPath)
    (recursive : Bool) : Except FJError (List DirectoryEntry) :=
  match rd.policy.validate_read fs.env path with
  | .error e => .error e
  | .ok validated_path =>
    if !fs.isDir validated_path then
      .error .invalidPath
    else
      .ok (((fs.walkCandidates validated_path recursive).filter
          (fun p => exceptIsOk (rd.policy.validate_read fs.env p))).map fs.mkEntry)

/-- `FileWriter` from `src/file_ops.rs`. -/
structure FileWriter where
  policy : AccessPolicy
  create_dirs : Bool

/-- `FileWriter::write_string`: validate the path, validate the content size,
optionally create the parent directories, open create+truncate+write
(translating the OS error kinds as the source does), then write all bytes
and sync.  Returns the result together with the filesystem state. -/
def FileWriter.write_string (w : FileWriter) (fs : FileSystem) (path : FPath)
    (content : String) : Except FJError Unit × FileSystem :=
  match w.policy.validate_write fs.env path with
  | .error e => (.error e, fs)
  | .ok validated_path =>
    match w.policy.validate_file_size content.utf8ByteSize with
    | .error e => (.error e, fs)
    | .ok _ =>
      match (if w.create_dirs then
          match validated_path with
          | [] => .ok fs
          | _ :: _ =>
            match fs.createDirAll validated_path.dropLast with
            | .ok fs1 => .ok fs1
            | .error _ => .error .ioError
        else
          (.ok fs : Except FJError FileSystem)) with
      | .error e => (.error e, fs)
      | .ok fs1 =>
        match fs1.openWriteCheck validated_path with
        | .error .permissionDenied => (.error .permissionDenied, fs1)
        | .error .notFound => (.error .fileNotFound, fs1)
        | .error .other => (.error .ioError, fs1)
        | .ok _ => (.ok (), fs1.setFile validated_path content)

/-- `FileWriter::append_string`: validate the path, open create+append (any
OS failure propagates as `Io` via `?`), then append the bytes.  The source
performs no size validation, no regular-file check and no sync here. -/
def FileWriter.append_string (w : FileWriter) (fs : FileSystem) (path : FPath)
    (content : String) : Except FJError Unit × FileSystem :=
  match w.policy.validate_write fs.env path with
  | .error e => (.error e, fs)
  | .ok validated_path =>
    match fs.openWriteCheck validated_path with
    | .error _ => (.error .ioError, fs)
    | .ok _ =>
      (.ok (), fs.setFile validated_path
        (((fs.fileContent validated_path).getD "") ++ content))

/-- `FileWriter::delete_file`: validate for write, require a regular file
(`InvalidPath` otherwise), then remove it. -/
def FileWriter.delete_file (w : FileWriter) (fs : FileSystem) (path : FPath) :
    Except FJError Unit × FileSystem :=
  match w.policy.validate_write fs.env path with
  | .error e => (.error e, fs)
  | .ok validated_path =>
    if !fs.isFile validated_path then
      (.error .invalidPath, fs)
    else
      (.ok (), fs.removeFile validated_path)

/-- Rewrite `p` under the rename of `src` to `dst`. -/
def replacePathRoot (src dst p : FPath) : FPath :=
  if pathStartsWith p src then dst ++ p.drop src.length else p

/-- `std::fs::rename`: move the tree rooted at `src` onto `dst`, replacing a
regular file already at `dst`. -/
def FileSystem.rename (fs : FileSystem) (src dst : FPath) : FileSystem :=
  let fs1 := fs.removeFile dst
  { files := fs1.files.map (fun e => (replacePathRoot src dst e.1, e.2))
    dirs := fs1.dirs.map (replacePathRoot src dst) }

/-- `FileWriter::move_file`: validate both endpoints for write, require the
source to exist (`FileNotFound` otherwise), then rename. -/
def FileWriter.move_file (w : FileWriter) (fs : FileSystem) (fromPath toPath : FPath) :
    Except FJError Unit × FileSystem :=
  match w.policy.validate_write fs.env fromPath with
  | .error e => (.error e, fs)
  | .ok validated_from =>
    match w.policy.validate_write fs.env toPath with
    | .error e => (.error e, fs)
    | .ok validated_to =>
      if !fs.pathExists validated_from then
        (.error .fileNotFound, fs)
      else
        (.ok (), fs.rename validated_from validated_to)

/-- `NonZeroU32::new` (`src/rate_limit.rs` dependency surface):
`None` exactly on `0`. -/
def nonZeroU32New (n : Nat) : Option Nat :=
  if n = 0 then none else some n

/-- `Quota::per_second`: takes a non-zero count; the `none` branch marks the
argument a `NonZeroU32` could never supply. -/
def quotaPerSecond (n : Nat) : Option Nat :=
  if n = 0 then none else some n

/-- `RateLimiter::new`: the quota installed for a requested rate, with
`unwrap_or(nonzero!(10u32))` substituting 10 for a zero argument.  A `some`
result means construction completes without panicking. -/
def rateLimiterNew (requests_per_second : Nat) : Option Nat :=
  quotaPerSecond ((nonZeroU32New requests_per_second).getD 10)

/-! ## Concrete states used by witnesses and counterexamples -/

/-- A small workspace: two files under `/ws`, a denied subtree `/ws/deny`. -/
def exFs : FileSystem :=
  { files := [(["ws", "a.txt"], "hi"), (["ws", "b.exe"], "x"),
              (["ws", "deny", "secret.txt"], "s")]
    dirs := [[], ["ws"], ["ws", "deny"]] }

/-- Allowed root `/ws`, denied root `/ws/deny`, denied extension `exe`. -/
def exPolicy : AccessPolicy :=
  { allowed_paths := [["ws"]]
    denied_paths := [["ws", "deny"]]
    allowed_extensions := []
    denied_extensions := ["exe"]
    max_file_size := 0
    allow_symlinks := false
    allow_hidden_files := false
    read_only := false }

/-- An environment with one symlink `/ws/link.txt` resolving to `/ws/real.txt`. -/
def symlinkEnv : OsEnv :=
  { canon := fun p =>
      if p == ["ws", "link.txt"] then .ok ["ws", "real.txt"]
      else if p == ["ws"] || p == [] || p == ["ws", "real.txt"] then .ok p
      else .error .notFound
    pathExists := fun p =>
      p == ["ws", "link.txt"] || p == ["ws"] || p == [] || p == ["ws", "real.txt"]
    readLinkOk := fun p => p == ["ws", "link.txt"] }

/-! ## Helper lemmas -/

theorem isEmpty_false_of_mem {α : Type} {a : α} {l : List α} (h : a ∈ l) :
    l.isEmpty = false := by
  cases l with
  | nil => cases h
  | cons b bs => rfl

theorem ok_bind {ε α β : Type} (a : α) (f : α → Except ε β) :
    (Except.ok a >>= f) = f a :=
  rfl

theorem error_bind {ε α β : Type} (e : ε) (f : α → Except ε β) :
    ((Except.error e : Except ε α) >>= f) = .error e :=
  rfl

theorem bind_ok_inv {ε α β : Type} {x : Except ε α} {f : α → Except ε β} {b : β}
    (h : (x >>= f) = .ok b) : ∃ a, x = .ok a ∧ f a = .ok b := by
  cases x with
  | error e => rw [error_bind] at h; cases h
  | ok a => exact ⟨a, rfl, by rwa [ok_bind] at h⟩

/-- If some entry of the denied list canonicalizes to a base of `c`, the
denied-paths loop rejects `c`. -/
theorem check_denied_go_err {env : OsEnv} {c d dc : FPath} {l : List FPath}
    (hd : d ∈ l) (hdc : env.canon d = .ok dc) (hpre : pathStartsWith c dc = true) :
    check_denied_go env c l = .error .permissionDenied := by
  induction l with
  | nil => cases hd
  | cons head rest ih =>
    unfold check_denied_go
    rcases List.mem_cons.mp hd with h | h
    · subst h
      rw [hdc]
      simp [hpre]
    · cases hcanon : env.canon head with
      | ok hc =>
        by_cases hcond : (pathStartsWith c hc || c == hc) = true
        · simp [hcond]
        · simp [hcond, ih h]
      | error e => simp [ih h]

/-! ## Claim theorems -/

/-- C1: for every policy and every path whose canonical form is equal to or
nested under some entry of `denied_paths` (an entry that itself
canonicalizes), `validate_read` returns `PermissionDenied` — with no
assumption on `allowed_paths`, so allow-list membership cannot bypass the
deny check, which runs first. -/
theorem validate_read_denied_precedence (policy : AccessPolicy) (env : OsEnv)
    (path c d dc : FPath)
    (hc : canonicalize_path env path = .ok c)
    (hd : d ∈ policy.denied_paths)
    (hdc : env.canon d = .ok dc)
    (hpre : pathStartsWith c dc = true) :
    policy.validate_read env path = .error .permissionDenied := by
  have hden : policy.check_denied_paths env c = .error .permissionDenied := by
    unfold AccessPolicy.check_denied_paths
    exact check_denied_go_err hd hdc hpre
  unfold AccessPolicy.validate_read
  rw [hc, ok_bind, hden, error_bind]

/-- Witness for C1: `/ws/deny/secret.txt` is under the denied root `/ws/deny`
and also under the allowed root `/ws`, and reading is denied. -/
theorem validate_read_denied_precedence_witness :
    exPolicy.validate_read exFs.env ["ws", "deny", "secret.txt"] =
      .error .permissionDenied :=
  validate_read_denied_precedence exPolicy exFs.env
    ["ws", "deny", "secret.txt"] ["ws", "deny", "secret.txt"]
    ["ws", "deny"] ["ws", "deny"]
    (by decide) (by decide) (by decide) (by decide)

/-- C2: with `read_only = true`, `validate_write` fails with
`PermissionDenied` for every path and every environment — the result does
not depend on the environment or the path, so no other check runs first. -/
theorem validate_write_read_only_denies (policy : AccessPolicy) (env : OsEnv)
    (path : FPath) (h : policy.read_only = true) :
    policy.validate_write env path = .error .permissionDenied := by
  unfold AccessPolicy.validate_write
  simp [h]

/-- Witness for C2: a read-only policy rejects writing even a path that is
illegal on every other count (denied root and denied extension). -/
theorem validate_write_read_only_denies_witness :
    ({ exPolicy with read_only := true }).validate_write exFs.env
      ["ws", "deny", "x.exe"] = .error .permissionDenied :=
  validate_write_read_only_denies { exPolicy with read_only := true } exFs.env
    ["ws", "deny", "x.exe"] (by decide)

/-- C9: the outcome of `validate_write` is identical under
`allow_symlinks := b` for any `b` (the write validator never consults the
flag), while `validate_read` on a symlinked path does consult it: the same
read is denied with the flag off and succeeds with it on. -/
theorem validate_write_symlink_flag_independent :
    (∀ (policy : AccessPolicy) (env : OsEnv) (path : FPath) (b : Bool),
      AccessPolicy.validate_write { policy with allow_symlinks := b } env path =
        policy.validate_write env path) ∧
    (({ exPolicy with allow_symlinks := false }).validate_read symlinkEnv
        ["ws", "link.txt"] = .error .permissionDenied ∧
      ({ exPolicy with allow_symlinks := true }).validate_read symlinkEnv
        ["ws", "link.txt"] = .ok ["ws", "real.txt"]) :=
  ⟨fun _ _ _ _ => rfl, by decide, by decide⟩

theorem isEmpty_false_of_ne_nil {α : Type} {l : List α} (h : l ≠ []) :
    l.isEmpty = false := by
  cases l with
  | nil => exact absurd rfl h
  | cons b bs => rfl

/-- Whenever `validate_write` succeeds it produced the original path, the
policy was not read-only, and the extension and hidden checks passed on the
original path. -/
theorem validate_write_ok_inv {policy : AccessPolicy} {env : OsEnv} {path r : FPath}
    (h : policy.validate_write env path = .ok r) :
    r = path ∧ policy.read_only = false ∧
      policy.check_extension path = .ok () ∧
      policy.check_hidden_files path = .ok () := by
  unfold AccessPolicy.validate_write at h
  split at h
  · cases h
  · rename_i hro
    obtain ⟨ptc, h1, h⟩ := bind_ok_inv h
    obtain ⟨canonical, h2, h⟩ := bind_ok_inv h
    obtain ⟨u1, h3, h⟩ := bind_ok_inv h
    obtain ⟨u2, h4, h⟩ := bind_ok_inv h
    obtain ⟨u3, h5, h⟩ := bind_ok_inv h
    obtain ⟨u4, h6, h⟩ := bind_ok_inv h
    cases u3
    cases u4
    refine ⟨by injection h with h7; exact h7.symm, by simpa using hro, h5, h6⟩

/-- C3: with `read_only = false`, `validate_write` (i) only ever returns the
original path unchanged, (ii) returns `InvalidPath` when the ancestor walk
finds no existing ancestor, and (iii) when the walk finds ancestor `a`, is
exactly the pipeline that canonicalizes `a`, runs the deny and allow root
checks on that canonical ancestor, runs the extension and hidden checks on
the original uncanonicalized path, and returns the original path. -/
theorem validate_write_spec (policy : AccessPolicy) (env : OsEnv) (path : FPath)
    (hro : policy.read_only = false) :
    (∀ r, policy.validate_write env path = .ok r → r = path) ∧
    (findExistingAncestor env path = .error .invalidPath →
      policy.validate_write env path = .error .invalidPath) ∧
    (∀ a, findExistingAncestor env path = .ok a →
      policy.validate_write env path =
        (canonicalize_path env a >>= fun canonical =>
          policy.check_denied_paths env canonical >>= fun _ =>
            policy.check_allowed_paths env canonical >>= fun _ =>
              policy.check_extension path >>= fun _ =>
                policy.check_hidden_files path >>= fun _ => .ok path)) := by
  refine ⟨fun r h => (validate_write_ok_inv h).1, ?_, ?_⟩
  · intro h
    unfold AccessPolicy.validate_write
    rw [if_neg (by simp [hro]), h, error_bind]
  · intro a ha
    unfold AccessPolicy.validate_write
    rw [if_neg (by simp [hro]), ha, ok_bind]

/-- Witness for C3: writing `/ws/new.txt` (not yet existing, ancestor `/ws`)
under the example policy. -/
theorem validate_write_spec_witness :
    (∀ r, exPolicy.validate_write exFs.env ["ws", "new.txt"] = .ok r →
      r = ["ws", "new.txt"]) ∧
    (findExistingAncestor exFs.env ["ws", "new.txt"] = .error .invalidPath →
      exPolicy.validate_write exFs.env ["ws", "new.txt"] = .error .invalidPath) ∧
    (∀ a, findExistingAncestor exFs.env ["ws", "new.txt"] = .ok a →
      exPolicy.validate_write exFs.env ["ws", "new.txt"] =
        (canonicalize_path exFs.env a >>= fun canonical =>
          exPolicy.check_denied_paths exFs.env canonical >>= fun _ =>
            exPolicy.check_allowed_paths exFs.env canonical >>= fun _ =>
              exPolicy.check_extension ["ws", "new.txt"] >>= fun _ =>
                exPolicy.check_hidden_files ["ws", "new.txt"] >>= fun _ =>
                  .ok ["ws", "new.txt"])) :=
  validate_write_spec exPolicy exFs.env ["ws", "new.txt"] (by decide)

/-- C6: the extension check (i) rejects with `PermissionDenied` whenever the
extension matches a denied entry case-insensitively, with no assumption on
the allow list (deny runs first); (ii) rejects when an allow list is
configured and the extension matches no entry of it case-insensitively;
(iii) rejects a path with no extension whenever the allow list is non-empty;
(iv) depends only on the lowercase form of the extension; and (v) when it
accepts, the extension matches no denied entry and, if an allow list is
configured, matches some allowed entry. -/
theorem check_extension_spec (policy : AccessPolicy) (p : FPath) :
    (∀ e d, pathExtension p = some e → d ∈ policy.denied_extensions →
      stringToLower e = stringToLower d →
      policy.check_extension p = .error .permissionDenied) ∧
    (∀ e, pathExtension p = some e → policy.allowed_extensions ≠ [] →
      (∀ a ∈ policy.allowed_extensions, stringToLower e ≠ stringToLower a) →
      policy.check_extension p = .error .permissionDenied) ∧
    (pathExtension p = none → policy.allowed_extensions ≠ [] →
      policy.check_extension p = .error .permissionDenied) ∧
    (∀ q : FPath,
      (pathExtension p).map stringToLower = (pathExtension q).map stringToLower →
      policy.check_extension p = policy.check_extension q) ∧
    (∀ e, policy.check_extension p = .ok () → pathExtension p = some e →
      (∀ d ∈ policy.denied_extensions, stringToLower e ≠ stringToLower d) ∧
      (policy.allowed_extensions ≠ [] →
        ∃ a ∈ policy.allowed_extensions, stringToLower e = stringToLower a)) := by
  refine ⟨?_, ?_, ?_, ?_, ?_⟩
  · intro e d hp hd he
    unfold AccessPolicy.check_extension
    rw [hp]
    have h1 : policy.denied_extensions.isEmpty = false := isEmpty_false_of_mem hd
    have h2 : policy.denied_extensions.any
        (fun de => stringToLower e == stringToLower de) = true := by
      rw [List.any_eq_true]
      exact ⟨d, hd, by simp [he]⟩
    simp [h1, h2]
  · intro e hp hne hnomatch
    unfold AccessPolicy.check_extension
    rw [hp]
    have hempty : policy.allowed_extensions.isEmpty = false :=
      isEmpty_false_of_ne_nil hne
    have hany : policy.allowed_extensions.any
        (fun a => stringToLower e == stringToLower a) = false := by
      rw [Bool.eq_false_iff]
      intro hc
      obtain ⟨a, ha, hax⟩ := List.any_eq_true.mp hc
      exact hnomatch a ha (by simpa using hax)
    by_cases hden : (!policy.denied_extensions.isEmpty &&
        policy.denied_extensions.any
          (fun de => stringToLower e == stringToLower de)) = true
    · simp [hden]
    · simp [hden, hempty, hany]
  · intro hp hne
    unfold AccessPolicy.check_extension
    rw [hp]
    simp [isEmpty_false_of_ne_nil hne]
  · intro q hmap
    unfold AccessPolicy.check_extension
    cases hp : pathExtension p with
    | none =>
      cases hq : pathExtension q with
      | none => rfl
      | some e' => rw [hp, hq] at hmap; simp at hmap
    | some e =>
      cases hq : pathExtension q with
      | none => rw [hp, hq] at hmap; simp at hmap
      | some e' =>
        rw [hp, hq] at hmap
        simp at hmap
        simp only [hmap]
  · intro e hok hp
    unfold AccessPolicy.check_extension at hok
    rw [hp] at hok
    constructor
    · intro d hd he
      have h1 : policy.denied_extensions.isEmpty = false := isEmpty_false_of_mem hd
      have h2 : policy.denied_extensions.any
          (fun de => stringToLower e == stringToLower de) = true := by
        rw [List.any_eq_true]
        exact ⟨d, hd, by simp [he]⟩
      simp [h1, h2] at hok
    · intro hne
      by_contra hnotex
      push_neg at hnotex
      have hempty : policy.allowed_extensions.isEmpty = false :=
        isEmpty_false_of_ne_nil hne
      have hany : policy.allowed_extensions.any
          (fun a => stringToLower e == stringToLower a) = false := by
        rw [Bool.eq_false_iff]
        intro hc
        obtain ⟨a, ha, hax⟩ := List.any_eq_true.mp hc
        exact (hnotex a ha) (by simpa using hax)
      by_cases hden : (!policy.denied_extensions.isEmpty &&
          policy.denied_extensions.any
            (fun de => stringToLower e == stringToLower de)) = true
      · simp [hden] at hok
      · simp [hden, hempty, hany] at hok

/-- Witness for C6: `B.EXE` is rejected although the deny list spells the
extension `exe` in lower case. -/
theorem check_extension_spec_witness :
    exPolicy.check_extension ["ws", "B.EXE"] = .error .permissionDenied :=
  (check_extension_spec exPolicy ["ws", "B.EXE"]).1 "EXE" "exe"
    (by decide) (by decide) (by decide)

/-- C10: `RateLimiter::new` never panics: for every requested rate it
produces a quota, equal to the request when non-zero and silently replaced
by 10 requests per second when the request is 0. -/
theorem rate_limiter_new_total (r : Nat) :
    rateLimiterNew r = some (if r = 0 then 10 else r) := by
  unfold rateLimiterNew nonZeroU32New quotaPerSecond
  by_cases h : r = 0 <;> simp [h]

theorem setFile_fileContent_self (fs : FileSystem) (p : FPath) (c : String) :
    (fs.setFile p c).fileContent p = some c := by
  unfold FileSystem.setFile FileSystem.fileContent
  simp

theorem pathExists_of_fileContent {fs : FileSystem} {p : FPath} {c : String}
    (h : fs.fileContent p = some c) : fs.pathExists p = true := by
  unfold FileSystem.pathExists FileSystem.isFile
  simp [h]

/-- Whenever `write_string` reports success, the write-path validation and
the size validation both passed and the resulting state holds exactly the
written contents at the target path. -/
theorem write_string_ok_inv {w : FileWriter} {fs fs' : FileSystem} {p : FPath}
    {c : String} (hw : w.write_string fs p c = (.ok (), fs')) :
    w.policy.validate_write fs.env p = .ok p ∧
      w.policy.validate_file_size c.utf8ByteSize = .ok () ∧
      fs'.fileContent p = some c := by
  unfold FileWriter.write_string at hw
  split at hw
  · simp at hw
  · rename_i vp hvp
    split at hw
    · simp at hw
    · rename_i u hsz
      split at hw
      · simp at hw
      · rename_i fs1 hdirs
        split at hw
        · simp at hw
        · simp at hw
        · simp at hw
        · simp only [Prod.mk.injEq] at hw
          have hvpp : vp = p := (validate_write_ok_inv hvp).1
          subst hvpp
          refine ⟨hvp, by cases u; exact hsz, ?_⟩
          rw [← hw.2]
          exact setFile_fileContent_self fs1 _ c

/-- C4 (amended): deleting requires the source to be an existing regular
file and fails with `InvalidPath` otherwise; moving requires the source to
exist and fails with `FileNotFound` otherwise; and on every failure both
operations leave the filesystem unchanged (nothing partially applied). -/
theorem delete_move_source_checks (w : FileWriter) (fs : FileSystem) (p q : FPath) :
    (w.policy.validate_write fs.env p = .ok p → fs.isFile p = false →
      w.delete_file fs p = (.error .invalidPath, fs)) ∧
    (w.policy.validate_write fs.env p = .ok p →
      w.policy.validate_write fs.env q = .ok q →
      fs.pathExists p = false →
      w.move_file fs p q = (.error .fileNotFound, fs)) ∧
    (∀ e fs', w.delete_file fs p = (.error e, fs') → fs' = fs) ∧
    (∀ e fs', w.move_file fs p q = (.error e, fs') → fs' = fs) := by
  refine ⟨?_, ?_, ?_, ?_⟩
  · intro hv hf
    unfold FileWriter.delete_file
    rw [hv]
    simp [hf]
  · intro hvp hvq hex
    unfold FileWriter.move_file
    rw [hvp, hvq]
    simp [hex]
  · intro e fs' h
    unfold FileWriter.delete_file at h
    split at h
    · simp at h
      exact h.2.symm
    · split at h
      · simp at h
        exact h.2.symm
      · simp at h
  · intro e fs' h
    unfold FileWriter.move_file at h
    split at h
    · simp at h
      exact h.2.symm
    · split at h
      · simp at h
        exact h.2.symm
      · split at h
        · simp at h
          exact h.2.symm
        · simp at h

/-- Witness for C4 (amended): deleting and moving the missing
`/ws/missing.txt` under the example policy. -/
theorem delete_move_source_checks_witness :
    (FileWriter.mk exPolicy false).delete_file exFs ["ws", "missing.txt"] =
      (.error .invalidPath, exFs) ∧
    (FileWriter.mk exPolicy false).move_file exFs ["ws", "missing.txt"]
      ["ws", "c.txt"] = (.error .fileNotFound, exFs) :=
  ⟨(delete_move_source_checks ⟨exPolicy, false⟩ exFs ["ws", "missing.txt"]
      ["ws", "c.txt"]).1 (by decide) (by decide),
    (delete_move_source_checks ⟨exPolicy, false⟩ exFs ["ws", "missing.txt"]
      ["ws", "c.txt"]).2.1 (by decide) (by decide) (by decide)⟩

/-- Counterexample for C4 as stated: the source `/ws/missing.txt` does not
exist, yet `delete_file` returns `InvalidPath`, not the `FileNotFound` the
claim requires (only `move_file` uses `FileNotFound`). -/
theorem delete_missing_not_fileNotFound :
    (FileWriter.mk exPolicy false).delete_file exFs ["ws", "missing.txt"] =
      (.error .invalidPath, exFs) ∧
    exFs.pathExists ["ws", "missing.txt"] = false ∧
    FJError.invalidPath ≠ FJError.fileNotFound := by
  refine ⟨by decide, by decide, by decide⟩

/-- C5 (amended): `write_string` validates the content size before touching
the state — an oversized content leaves the filesystem unchanged and never
reports success — and a successful `write_string` has written all bytes of
the content; `append_string`, by contrast, performs no size validation at
all: its outcome is identical under every `max_file_size`. -/
theorem write_size_gate (w : FileWriter) (fs : FileSystem) (p : FPath) (c : String) :
    (w.policy.validate_file_size c.utf8ByteSize = .error .permissionDenied →
      (w.write_string fs p c).2 = fs ∧ ∀ u, (w.write_string fs p c).1 ≠ .ok u) ∧
    (∀ fs', w.write_string fs p c = (.ok (), fs') → fs'.fileContent p = some c) ∧
    (∀ n, FileWriter.append_string ⟨{ w.policy with max_file_size := n }, w.create_dirs⟩
        fs p c = w.append_string fs p c) := by
  refine ⟨?_, fun fs' hw => (write_string_ok_inv hw).2.2, fun n => rfl⟩
  intro hsz
  unfold FileWriter.write_string
  cases hv : w.policy.validate_write fs.env p with
  | error e => exact ⟨rfl, by simp⟩
  | ok vp =>
    rw [hsz]
    simp

/-- Witness for C5 (amended): writing 5 bytes under a 1-byte cap changes
nothing; the successful 5-byte write under no cap stores the content; the
append outcome ignores the cap. -/
theorem write_size_gate_witness :
    (((FileWriter.mk { exPolicy with max_file_size := 1 } false).write_string
        exFs ["ws", "c.txt"] "hello").2 = exFs ∧
      ∀ u, ((FileWriter.mk { exPolicy with max_file_size := 1 } false).write_string
        exFs ["ws", "c.txt"] "hello").1 ≠ .ok u) ∧
    (((FileWriter.mk exPolicy false).write_string exFs ["ws", "c.txt"]
        "hello").2).fileContent ["ws", "c.txt"] = some "hello" :=
  ⟨(write_size_gate ⟨{ exPolicy with max_file_size := 1 }, false⟩ exFs
      ["ws", "c.txt"] "hello").1 (by decide),
    (write_size_gate ⟨exPolicy, false⟩ exFs ["ws", "c.txt"] "hello").2.1
      ((FileWriter.mk exPolicy false).write_string exFs ["ws", "c.txt"] "hello").2
      (by decide)⟩

/-- Counterexample for C5 as stated: under a 1-byte size cap,
`append_string` of the 2-byte content `"ab"` succeeds and writes the bytes,
although the size validator rejects that size — append performs no size
check (and no sync) before writing. -/
theorem append_size_unchecked :
    ((FileWriter.mk { exPolicy with max_file_size := 1 } false).append_string
        exFs ["ws", "a.txt"] "ab").1 = .ok () ∧
    ({ exPolicy with max_file_size := 1 } :
        AccessPolicy).validate_file_size ("ab".utf8ByteSize) =
      .error .permissionDenied ∧
    (((FileWriter.mk { exPolicy with max_file_size := 1 } false).append_string
        exFs ["ws", "a.txt"] "ab").2).fileContent ["ws", "a.txt"] = some "hiab" := by
  refine ⟨by decide, by decide, by decide⟩

/-- C7: once the listed root validates and is a directory, `list_directory`
returns success (never a partial error); every returned entry was
independently re-validated against the full policy; every discovered path
that validates is included; and every discovered path that fails validation
is silently omitted. -/
theorem list_directory_filters (rd : FileReader) (fs : FileSystem) (path v : FPath)
    (recursive : Bool)
    (hv : rd.policy.validate_read fs.env path = .ok v)
    (hd : fs.isDir v = true) :
    ∃ es, rd.list_directory fs path recursive = .ok es ∧
      (∀ e ∈ es, exceptIsOk (rd.policy.validate_read fs.env e.path) = true) ∧
      (∀ p ∈ fs.walkCandidates v recursive,
        exceptIsOk (rd.policy.validate_read fs.env p) = true → fs.mkEntry p ∈ es) ∧
      (∀ p ∈ fs.walkCandidates v recursive,
        exceptIsOk (rd.policy.validate_read fs.env p) = false → fs.mkEntry p ∉ es) := by
  have hlist : rd.list_directory fs path recursive =
      .ok (((fs.walkCandidates v recursive).filter
        (fun p => exceptIsOk (rd.policy.validate_read fs.env p))).map fs.mkEntry) := by
    unfold FileReader.list_directory
    rw [hv]
    simp [hd]
  refine ⟨_, hlist, ?_, ?_, ?_⟩
  · intro e he
    obtain ⟨pe, hpe, hmk⟩ := List.mem_map.mp he
    have hpath : e.path = pe := by rw [← hmk]; rfl
    rw [hpath]
    exact (List.mem_filter.mp hpe).2
  · intro pe hmem hok
    exact List.mem_map_of_mem _ (List.mem_filter.mpr ⟨hmem, hok⟩)
  · intro pe hmem hbad hin
    obtain ⟨qe, hqe, hmk⟩ := List.mem_map.mp hin
    have hqp : qe = pe := congrArg DirectoryEntry.path hmk
    rw [hqp] at hqe
    rw [(List.mem_filter.mp hqe).2] at hbad
    cases hbad

/-- Witness for C7: listing `/ws` non-recursively under the example policy,
a directory holding one allowed file and one denied-extension file. -/
theorem list_directory_filters_witness :
    ∃ es, (FileReader.mk exPolicy).list_directory exFs ["ws"] false = .ok es ∧
      (∀ e ∈ es, exceptIsOk (exPolicy.validate_read exFs.env e.path) = true) ∧
      (∀ p ∈ exFs.walkCandidates ["ws"] false,
        exceptIsOk (exPolicy.validate_read exFs.env p) = true →
          exFs.mkEntry p ∈ es) ∧
      (∀ p ∈ exFs.walkCandidates ["ws"] false,
        exceptIsOk (exPolicy.validate_read exFs.env p) = false →
          exFs.mkEntry p ∉ es) :=
  list_directory_filters ⟨exPolicy⟩ exFs ["ws"] ["ws"] false (by decide) (by decide)

/-- C8: when `write_string` succeeds and the policy also admits the target
for reading (deny and allow root checks on the written file), reading the
file back returns exactly the written content. -/
theorem write_read_round_trip (w : FileWriter) (fs fs' : FileSystem) (p : FPath)
    (c : String)
    (hw : w.write_string fs p c = (.ok (), fs'))
    (hden : w.policy.check_denied_paths fs'.env p = .ok ())
    (hall : w.policy.check_allowed_paths fs'.env p = .ok ()) :
    FileReader.read_to_string ⟨w.policy⟩ fs' p = .ok c := by
  obtain ⟨hvw, hsz, hcontent⟩ := write_string_ok_inv hw
  obtain ⟨-, -, hext, hhid⟩ := validate_write_ok_inv hvw
  have hex : fs'.pathExists p = true := pathExists_of_fileContent hcontent
  have hcanon : canonicalize_path fs'.env p = .ok p := by
    unfold canonicalize_path FileSystem.env
    simp [hex]
  have hsym : w.policy.check_symlinks fs'.env p p = .ok () := by
    unfold AccessPolicy.check_symlinks
    simp
  have hvr : w.policy.validate_read fs'.env p = .ok p := by
    unfold AccessPolicy.validate_read
    rw [hcanon, ok_bind, hden, ok_bind, hall, ok_bind, hext, ok_bind, hhid,
      ok_bind, hsym, ok_bind]
  simp only [FileReader.read_to_string]
  rw [hvr]
  simp [hcontent, hsz]

/-- The state after the example write, used by the round-trip witness. -/
def exFsAfterWrite : FileSystem :=
  ((FileWriter.mk exPolicy false).write_string exFs ["ws", "c.txt"] "hello").2

/-- Witness for C8: writing then reading `/ws/c.txt` returns `"hello"`. -/
theorem write_read_round_trip_witness :
    FileReader.read_to_string ⟨exPolicy⟩ exFsAfterWrite ["ws", "c.txt"] =
      .ok "hello" :=
  write_read_round_trip ⟨exPolicy, false⟩ exFs exFsAfterWrite ["ws", "c.txt"]
    "hello" (by decide) (by decide) (by decide)

end FileJack
